import Mathlib

/-!
Verification of the console-call-recording-analyser CLI against its
natural-language specification.

The definitions below are a shallow embedding of the TypeScript sources:
`src/index.ts` (summary walk, CSV generation, duration helpers, TP-token
filename metadata), `src/filename_parsers/arex-filename-parser.ts`,
`src/filename_parsers/simple-filename-parser.ts` and
`src/filename_parsers/filename-parser-factory.ts`.  Where a component named
by the specification is not present under `src/` (the CsvCodec `parse`, the
pure `hmsToSeconds` duration parser, and the factory's manual-override slot)
the definition is modelled from the specification's words and marked as such
in its doc comment.

JavaScript machine integers are modelled as `Nat`: every numeric value that
reaches a branch in the embedded code paths is below 2^53, where IEEE
doubles are exact, and for larger TP1 digit runs only the comparison against
the `Date` range limit matters, which float rounding cannot change.
-/

namespace CallRec

/-- JS `\d` character class: the ASCII digits. -/
def isDigitCh (c : Char) : Bool := c.isDigit

/-- Numeric value of a digit run, most significant digit first. -/
def digitsVal (cs : List Char) : Nat :=
  cs.foldl (fun acc c => acc * 10 + (c.toNat - 48)) 0

/-! ## CSV serialisation (from `generateCsvFile`, src/index.ts:1185-1212) -/

/-- Field emission of `generateCsvFile`: the value is wrapped in double
quotes verbatim; embedded double quotes are not transformed. -/
def csvEscape (s : String) : String := "\"" ++ s ++ "\""

/-- One data row as emitted by `generateCsvFile`: quoted fields joined by
commas. -/
def csvSerializeRow (fields : List String) : String :=
  String.intercalate "," (fields.map csvEscape)

/-- Modelled from the spec: CsvCodec `parse` is not present under `src/`
(only the serialising side is, inside `generateCsvFile`).  Character-level
state machine over the text: an inside-quotes flag is toggled by `"`, a
doubled `""` inside quotes is a literal quote, `,` separates fields only
outside quotes, a newline outside quotes ends a row, and a row that is a
single empty field (an empty line) is skipped. -/
def csvScan (inQ : Bool) (field : List Char) (row : List (List Char))
    (rows : List (List (List Char))) : List Char → List (List (List Char))
  | [] =>
    let done := row ++ [field]
    rows ++ (if done = [[]] then [] else [done])
  | c :: cs =>
    if c = '"' then
      if inQ then
        match cs with
        | '"' :: cs2 => csvScan true (field ++ ['"']) row rows cs2
        | [] => csvScan false field row rows []
        | c2 :: cs2 => csvScan false field row rows (c2 :: cs2)
      else csvScan true field row rows cs
    else if c = ',' then
      if inQ then csvScan inQ (field ++ [c]) row rows cs
      else csvScan inQ [] (row ++ [field]) rows cs
    else if c = '\n' then
      if inQ then csvScan inQ (field ++ [c]) row rows cs
      else
        let done := row ++ [field]
        csvScan inQ [] [] (rows ++ (if done = [[]] then [] else [done])) cs
    else csvScan inQ (field ++ [c]) row rows cs
termination_by structural cs => cs

/-- Modelled from the spec: CsvCodec `parse` (see `csvScan`). -/
def csvParse (s : String) : List (List String) :=
  (csvScan false [] [] [] s.data).map (fun r => r.map String.mk)

/-- The header row hard-coded in `generateCsvFile` (src/index.ts:1190). -/
def csvHeaders : List String :=
  ["Filename", "Duration", "Has Transcription", "Timestamp", "Phone Number",
   "Call Type"]

/-! ## UTC timestamp rendering (from `new Date(ts).toISOString()`) -/

/-- Largest millisecond value accepted by a JS `Date`
(8.64e15; beyond it `toISOString` throws a `RangeError`). -/
def maxDateMs : Nat := 8640000000000000

/-- Gregorian civil date from a day count since 1970-01-01 (era-based
algorithm, valid for the non-negative day counts reachable here). -/
def civilFromDays (z : Nat) : Nat × Nat × Nat :=
  let z2 := z + 719468
  let era := z2 / 146097
  let doe := z2 % 146097
  let yoe := (doe - doe / 1460 + doe / 36524 - doe / 146096) / 365
  let y := yoe + era * 400
  let doy := doe - (365 * yoe + yoe / 4 - yoe / 100)
  let mp := (5 * doy + 2) / 153
  let d := doy - (153 * mp + 2) / 5 + 1
  let m := if mp < 10 then mp + 3 else mp - 9
  (if m ≤ 2 then y + 1 else y, m, d)

/-- Left-pad a number to two digits. -/
def pad2 (n : Nat) : String :=
  if n < 10 then "0" ++ toString n else toString n

/-- Left-pad a number to four digits (years of interest have four digits). -/
def pad4 (n : Nat) : String :=
  if n < 10 then "000" ++ toString n
  else if n < 100 then "00" ++ toString n
  else if n < 1000 then "0" ++ toString n
  else toString n

/-- `new Date(ms).toISOString().slice(0, 19).replace('T', ' ')` for
millisecond timestamps whose year has at most four digits: the canonical
`YYYY-MM-DD HH:MM:SS` UTC rendering. -/
def msToTimestamp (ms : Nat) : String :=
  let s := ms / 1000
  let days := s / 86400
  let rem := s % 86400
  let ymd := civilFromDays days
  pad4 ymd.1 ++ "-" ++ pad2 ymd.2.1 ++ "-" ++ pad2 ymd.2.2 ++ " " ++
    pad2 (rem / 3600) ++ ":" ++ pad2 (rem % 3600 / 60) ++ ":" ++
    pad2 (rem % 60)

/-! ## Filename metadata (src/filename_parsers/*, src/index.ts:1103-1147) -/

/-- The record produced for every filename: `{timestamp, phoneNumber,
callType}`, each defaulting to `"N/A"`. -/
structure FilenameMetadata where
  timestamp : String
  phoneNumber : String
  callType : String
deriving DecidableEq, Repr

/-- The all-default metadata record. -/
def allNA : FilenameMetadata := ⟨"N/A", "N/A", "N/A"⟩

/-- First-match semantics of a JS regex `tok(cls+)`: scan left to right; at
the first position where `tok` is a prefix and is followed by a non-empty
run of `cls` characters, capture that maximal run. -/
def scanTok (tok : List Char) (cls : Char → Bool) : List Char → Option (List Char)
  | [] => none
  | c :: rest =>
    if tok.isPrefixOf (c :: rest) then
      let run := ((c :: rest).drop tok.length).takeWhile cls
      if run.isEmpty then scanTok tok cls rest else some run
    else scanTok tok cls rest

/-- `filename.indexOf(tok)` followed by `substring`: the suffix just after
the first occurrence of `tok`, if any. -/
def suffixAfter (tok : List Char) : List Char → Option (List Char)
  | [] => none
  | c :: rest =>
    if tok.isPrefixOf (c :: rest) then some ((c :: rest).drop tok.length)
    else suffixAfter tok rest

/-- Whether a list starts with `T`, `P` and a digit (the JS regex `TP\d`). -/
def matchTPd : List Char → Bool
  | 'T' :: 'P' :: d :: _ => d.isDigit
  | _ => false

/-- Index of the first match of the JS regex `TP\d`, if any. -/
def tpDigitIndex : List Char → Option Nat
  | [] => none
  | c :: rest =>
    if matchTPd (c :: rest) then some 0
    else (tpDigitIndex rest).map (· + 1)

/-- JS `\w` character class: ASCII letters, digits and underscore. -/
def isWordCh (c : Char) : Bool := c.isAlphanum || c = '_'

/-- TP3 character class: `[+\d]`. -/
def isPlusDigit (c : Char) : Bool := c = '+' || c.isDigit

/-- JS `String.prototype.trim` on the characters that can occur here:
leading and trailing whitespace removed. -/
def jsTrim (cs : List Char) : List Char :=
  ((cs.dropWhile Char.isWhitespace).reverse.dropWhile Char.isWhitespace).reverse

/-- `phoneStr.startsWith('+') ? phoneStr.substring(1) : phoneStr`. -/
def stripPlus : List Char → List Char
  | [] => []
  | c :: rest => if c = '+' then rest else c :: rest

/-- The TP3 phone extraction shared by both TP-token parsers: the `[+\d]+`
run after the first `TP3`, with one leading `+` stripped. -/
def arexPhoneOf (cs : List Char) : Option String :=
  (scanTok ['T', 'P', '3'] isPlusDigit cs).map fun p => String.mk (stripPlus p)

/-- The TP4 call-type extraction shared by both TP-token parsers: when the
regex `TP4(\w+)` matches, the substring just after the first occurrence of
`TP4`, truncated at the first later `TP\d` match (untrimmed). -/
def arexCallTypeOf (cs : List Char) : Option (List Char) :=
  match scanTok ['T', 'P', '4'] isWordCh cs with
  | none => none
  | some _ =>
    match suffixAfter ['T', 'P', '4'] cs with
    | none => none
    | some after =>
      match tpDigitIndex after with
      | some i => some (after.take i)
      | none => some after

/-- `ArexFilenameParser.parse` (src/filename_parsers/arex-filename-parser.ts):
TP1 digits become a millisecond UTC timestamp, TP3 the phone number, TP4 the
call type (trimmed).  A TP1 value beyond the JS `Date` range makes
`toISOString` throw inside the `try` block, so the catch branch returns the
defaults for all three fields. -/
def arexParse (filename : String) : FilenameMetadata :=
  let cs := filename.data
  match scanTok ['T', 'P', '1'] isDigitCh cs with
  | some ds =>
    if digitsVal ds ≤ maxDateMs then
      { timestamp := msToTimestamp (digitsVal ds)
        phoneNumber := (arexPhoneOf cs).getD "N/A"
        callType := ((arexCallTypeOf cs).map (fun r => String.mk (jsTrim r))).getD "N/A" }
    else allNA
  | none =>
    { timestamp := "N/A"
      phoneNumber := (arexPhoneOf cs).getD "N/A"
      callType := ((arexCallTypeOf cs).map (fun r => String.mk (jsTrim r))).getD "N/A" }

/-- `parseFilenameMetadata` (src/index.ts:1103-1147): identical to
`arexParse` except that the call type is not trimmed. -/
def parseFilenameMetadataIndex (filename : String) : FilenameMetadata :=
  let cs := filename.data
  match scanTok ['T', 'P', '1'] isDigitCh cs with
  | some ds =>
    if digitsVal ds ≤ maxDateMs then
      { timestamp := msToTimestamp (digitsVal ds)
        phoneNumber := (arexPhoneOf cs).getD "N/A"
        callType := ((arexCallTypeOf cs).map String.mk).getD "N/A" }
    else allNA
  | none =>
    { timestamp := "N/A"
      phoneNumber := (arexPhoneOf cs).getD "N/A"
      callType := ((arexCallTypeOf cs).map String.mk).getD "N/A" }

/-- `ArexFilenameParser.canParse`: the filename contains `TP1`, `TP3` or
`TP4`. -/
def arexCanParse (filename : String) : Bool :=
  (suffixAfter ['T', 'P', '1'] filename.data).isSome ||
  (suffixAfter ['T', 'P', '3'] filename.data).isSome ||
  (suffixAfter ['T', 'P', '4'] filename.data).isSome

/-- `filename.replace(/\.[^.]+$/, '')`: drop a final dot followed by one or
more non-dot characters, when present. -/
def stripLastExt (s : String) : String :=
  let rev := s.data.reverse
  let nonDots := rev.takeWhile (fun c => c ≠ '.')
  match nonDots, rev.drop nonDots.length with
  | _ :: _, '.' :: remaining => String.mk remaining.reverse
  | _, _ => s

/-- Phone capture of the compact pattern: `[+]?[\d]+` (non-empty digits,
optionally preceded by `+`). -/
def compactPhoneOk : List Char → Bool
  | [] => false
  | c :: rest =>
    if c = '+' then !rest.isEmpty && rest.all isDigitCh
    else (c :: rest).all isDigitCh

/-- The compact pattern `^([+]?[\d]+)-(\d{2})(\d{2})(\d{2})(\d{2})(\d{2})$`
of `SimpleFilenameParser`: when the base name is a phone, a dash and ten
digits, return the raw phone and the five two-digit groups. -/
def compactMatch (cs : List Char) :
    Option (List Char × List Char × List Char × List Char × List Char × List Char) :=
  let phonePart := cs.take (cs.length - 11)
  match cs.drop (cs.length - 11) with
  | '-' :: t =>
    if t.length = 10 && t.all isDigitCh && compactPhoneOk phonePart then
      some (phonePart, t.take 2, (t.drop 2).take 2, (t.drop 4).take 2,
            (t.drop 6).take 2, t.drop 8)
    else none
  | _ => none

/-- JS `\s` on the characters that can occur here. -/
def isSpacey (c : Char) : Bool :=
  c = ' ' || c = '\t' || c = '\n' || c = '\r'

/-- Character class `[\d\s-]` of the space-separated phone capture. -/
def spacePhoneClass (c : Char) : Bool := c.isDigit || isSpacey c || c = '-'

/-- Shape `\d{4}-\d{2}-\d{2}` (exactly ten characters). -/
def dateShape : List Char → Bool
  | [a, b, c, d, '-', e, f, '-', g, h] =>
    a.isDigit && b.isDigit && c.isDigit && d.isDigit && e.isDigit &&
    f.isDigit && g.isDigit && h.isDigit
  | _ => false

/-- Capture of the trailing `\s+(\d{4}-\d{2}-\d{2})\s+(\d{2})-(\d{2})-(\d{2})$`
of the space-separated pattern, applied to the text after the phone part. -/
def spaceTailCap (cs : List Char) :
    Option (List Char × List Char × List Char × List Char) :=
  let sp1 := cs.takeWhile isSpacey
  if sp1.isEmpty then none
  else
    let r1 := cs.drop sp1.length
    if dateShape (r1.take 10) then
      let r2 := r1.drop 10
      let sp2 := r2.takeWhile isSpacey
      if sp2.isEmpty then none
      else
        match r2.drop sp2.length with
        | [h1, h2, '-', m1, m2, '-', s1, s2] =>
          if h1.isDigit && h2.isDigit && m1.isDigit && m2.isDigit &&
              s1.isDigit && s2.isDigit then
            some (r1.take 10, [h1, h2], [m1, m2], [s1, s2])
          else none
        | _ => none
    else none

/-- Lazy search for the split point of `([+]?[\d\s-]+?)\s+...`: grow the
phone capture one class character at a time and take the first position
where the tail pattern matches. -/
def searchSplitCap (acc : List Char) :
    List Char → Option (List Char × List Char × List Char × List Char × List Char)
  | [] => none
  | c :: rest =>
    if spacePhoneClass c then
      match spaceTailCap rest with
      | some (d, hh, mm, ss) => some (acc ++ [c], d, hh, mm, ss)
      | none => searchSplitCap (acc ++ [c]) rest
    else none

/-- The space-separated pattern
`^([+]?[\d\s-]+?)\s+(\d{4}-\d{2}-\d{2})\s+(\d{2})-(\d{2})-(\d{2})$` of
`SimpleFilenameParser`: raw phone capture plus date and time groups. -/
def spaceMatchCap (cs : List Char) :
    Option (List Char × List Char × List Char × List Char × List Char) :=
  match cs with
  | [] => none
  | c :: t => if c = '+' then searchSplitCap ['+'] t else searchSplitCap [] (c :: t)

/-- `SimpleFilenameParser.parse`
(src/filename_parsers/simple-filename-parser.ts:18-59): try the
space-separated pattern, then the compact pattern, on the base name with the
extension stripped; normalise the phone and reassemble the timestamp (the
compact form gets century prefix `20` and seconds `:00`). -/
def simpleParse (filename : String) : FilenameMetadata :=
  let cs := (stripLastExt filename).data
  match spaceMatchCap cs with
  | some (rawP, date, hh, mm, ss) =>
    let normalized := stripPlus (rawP.filter isPlusDigit)
    { timestamp := String.mk date ++ " " ++ String.mk hh ++ ":" ++
        String.mk mm ++ ":" ++ String.mk ss
      phoneNumber := if normalized.isEmpty then "N/A" else String.mk normalized
      callType := "N/A" }
  | none =>
    match compactMatch cs with
    | some (rawP, yy, mo, dd, hh, mi) =>
      let normalized := stripPlus rawP
      { timestamp := "20" ++ String.mk yy ++ "-" ++ String.mk mo ++ "-" ++
          String.mk dd ++ " " ++ String.mk hh ++ ":" ++ String.mk mi ++ ":00"
        phoneNumber := if normalized.isEmpty then "N/A" else String.mk normalized
        callType := "N/A" }
    | none => allNA

/-- `SimpleFilenameParser.canParse`: either pattern matches the base name. -/
def simpleCanParse (filename : String) : Bool :=
  (spaceMatchCap (stripLastExt filename).data).isSome ||
  (compactMatch (stripLastExt filename).data).isSome

/-! ## Parser strategy chain (src/filename_parsers/filename-parser-factory.ts) -/

/-- One filename-parser strategy: `{name, canParse, parse}`. -/
structure FilenameStrategy where
  name : String
  canParse : String → Bool
  parse : String → FilenameMetadata

/-- The arex strategy object. -/
def arexStrategy : FilenameStrategy := ⟨"arex", arexCanParse, arexParse⟩

/-- The simple strategy object. -/
def simpleStrategy : FilenameStrategy := ⟨"simple", simpleCanParse, simpleParse⟩

/-- The parser factory: an ordered strategy list (`addParser` pushes to the
back, so list order is registration order).  The `manualParser` slot is
modelled from the spec: the manual-override parser described in §4.2 is not
present in the factory under `src/`, which only has the ordered chain. -/
structure ParserFactory where
  parsers : List FilenameStrategy
  manualParser : Option FilenameStrategy

/-- The factory state built by the constructor: arex first, then simple, no
override. -/
def defaultFactory : ParserFactory := ⟨[arexStrategy, simpleStrategy], none⟩

/-- The `for`-loop of `FilenameParserFactory.parseFilenameMetadata`: first
strategy whose `canParse` accepts wins; all-default record otherwise. -/
def tryStrategies : List FilenameStrategy → String → FilenameMetadata
  | [], _ => allNA
  | p :: rest, f => if p.canParse f then p.parse f else tryStrategies rest f

/-- `FilenameParserFactory.parseFilenameMetadata`, extended with the
spec-modelled manual override: when an override parser is set it is used
unconditionally, otherwise the registered chain is tried in order. -/
def factoryResolve (fac : ParserFactory) (f : String) : FilenameMetadata :=
  match fac.manualParser with
  | some p => p.parse f
  | none => tryStrategies fac.parsers f

/-! ## Duration helpers -/

/-- Split at `:` separators, JS `String.prototype.split(':')` style. -/
def splitOnColon : List Char → List (List Char)
  | [] => [[]]
  | c :: rest =>
    if c = ':' then [] :: splitOnColon rest
    else
      match splitOnColon rest with
      | r :: rs => (c :: r) :: rs
      | [] => [[c]]

/-- Modelled from the spec: part parsing inside `hmsToSeconds` — a part that
is a plain digit run has its numeric value, any unparsable part defaults
to 0. -/
def parseIntOr0 (cs : List Char) : Nat :=
  if !cs.isEmpty && cs.all isDigitCh then digitsVal cs else 0

/-- Modelled from the spec: the pure duration parser `hmsToSeconds` (§4.6
step 4) is not present under `src/` (only `isLongerThanOneMinute` is).
Three colon-parts are `H:MM:SS`, two are `MM:SS`, one is a bare integer;
unparsable parts default to 0 and any other shape yields 0. -/
def hmsToSeconds (s : String) : Nat :=
  match splitOnColon s.data with
  | [h, m, sec] => 3600 * parseIntOr0 h + 60 * parseIntOr0 m + parseIntOr0 sec
  | [m, sec] => 60 * parseIntOr0 m + parseIntOr0 sec
  | [x] => parseIntOr0 x
  | _ => 0

/-- `isLongerThanOneMinute` (src/index.ts:1088-1101): only the
three-colon-part shape is accepted; any other shape is not longer than a
minute. -/
def isLongerThanOneMinute (duration : String) : Bool :=
  match splitOnColon duration.data with
  | [h, m, sec] =>
    decide (60 * (60 * parseIntOr0 h + parseIntOr0 m) + parseIntOr0 sec > 60)
  | _ => false

/-! ## Summary walk (src/index.ts:206-270, `processFolderForSummary`) -/

/-- The supported audio/video extension set (src/index.ts:91). -/
def supportedExtensions : List String :=
  [".mp3", ".wav", ".mp4", ".m4a", ".flac", ".ogg", ".amr"]

/-- `path.extname` on a plain file name: the suffix from the last dot,
empty when there is no dot, when the only dot is the leading character of a
hidden file, or for the special names `.` and `..`. -/
def extname (s : String) : String :=
  if s = "." || s = ".." then ""
  else
    let rev := s.data.reverse
    let afterDot := rev.takeWhile (fun c => c ≠ '.')
    match rev.drop afterDot.length with
    | '.' :: [] => ""
    | '.' :: _ :: _ => String.mk ('.' :: afterDot.reverse)
    | _ => ""

/-- `toLowerCase` character by character (ASCII, which is all that the
extension comparison can meet). -/
def lowerStr (s : String) : String := String.mk (s.data.map Char.toLower)

/-- The per-file filter of the summary walk (src/index.ts:226-227):
`extensions.includes(path.extname(item.name).toLowerCase())`. -/
def isSupportedFile (name : String) : Bool :=
  supportedExtensions.contains (lowerStr (extname name))

/-- Simplified model of `path.join` on already-clean segments. -/
def pathJoin (a b : String) : String := a ++ "/" ++ b

/-- `path.basename(name, ext)` for `ext = extname name`: the extension is
dropped unless the name is nothing but the extension. -/
def baseNameNoExt (name : String) : String :=
  let ext := extname name
  if ext.isEmpty || name = ext then name else name.dropRight ext.length

/-- The transcript sidecar path probed for a file (src/index.ts:233). -/
def txtSidecar (folder name : String) : String :=
  pathJoin folder (baseNameNoExt name ++ ".txt")

/-- The external collaborators of the walk: the duration provider
(`getAudioDuration`, `none` on failure) and the transcript existence check
(`fs.access` on the `.txt` sidecar). -/
structure Env where
  durationOf : String → Option String
  txtExists : String → Bool

/-- One `csvData` entry (src/index.ts:246-251). -/
structure SummaryRow where
  filename : String
  duration : String
  hasTranscription : Bool
  meta : FilenameMetadata
deriving DecidableEq, Repr

/-- Row construction for one supported audio file: `duration || 'N/A'` plus
the transcript probe and filename metadata. -/
def buildRow (env : Env) (folder name : String) : SummaryRow :=
  { filename := name
    duration := match env.durationOf (pathJoin folder name) with
      | some d => if d.isEmpty then "N/A" else d
      | none => "N/A"
    hasTranscription := env.txtExists (txtSidecar folder name)
    meta := parseFilenameMetadataIndex name }

/-- One CSV line of `generateCsvFile` for a row. -/
def rowLine (r : SummaryRow) : String :=
  csvSerializeRow [r.filename, r.duration,
    if r.hasTranscription then "Yes" else "No",
    r.meta.timestamp, r.meta.phoneNumber, r.meta.callType] ++ "\n"

/-- The full text written by `generateCsvFile` (src/index.ts:1185-1212):
unquoted header line, then one quoted line per row. -/
def generateCsvContent (rows : List SummaryRow) : String :=
  String.intercalate "," csvHeaders ++ "\n" ++ String.join (rows.map rowLine)

/-- The text up to the first newline. -/
def firstLine (s : String) : String :=
  String.mk (s.data.takeWhile (fun c => c ≠ '\n'))

/-- A directory listing as seen by the walk, entry by entry in listing
order.  `readError` stands for a directory whose `fs.readdir` rejects. -/
inductive DirTree where
  | readError : DirTree
  | nil : DirTree
  | fileEntry (name : String) (rest : DirTree) : DirTree
  | dirEntry (name : String) (child : DirTree) (rest : DirTree) : DirTree
deriving DecidableEq, Repr

/-- The only filesystem error the walk can propagate. -/
inductive FsError where
  | readdirFailed : FsError
deriving DecidableEq, Repr

/-- A file written by the walk: target path and content. -/
abbrev FileWrite := String × String

/-- The loop body of `processFolderForSummary` over one directory's
entries: supported files become rows; a subdirectory is processed
recursively, its writes are kept even when a deeper listing fails, and such
a failure aborts everything after it (the rows of the current directory are
then never written).  Result: rows of this directory, writes performed so
far, and the propagated error if any. -/
def procList (env : Env) (folder : String) :
    DirTree → List SummaryRow × List FileWrite × Option FsError
  | .readError => ([], [], some .readdirFailed)
  | .nil => ([], [], none)
  | .fileEntry name rest =>
    let r := procList env folder rest
    ((if isSupportedFile name then [buildRow env folder name] else []) ++ r.1,
      r.2.1, r.2.2)
  | .dirEntry name child rest =>
    let sub := procList env (pathJoin folder name) child
    match sub.2.2 with
    | some e =>
      ([], sub.2.1, some e)
    | none =>
      let cAll := sub.2.1 ++
        (if sub.1.isEmpty then []
         else [(pathJoin (pathJoin folder name) "summary.csv",
                generateCsvContent sub.1)])
      let r := procList env folder rest
      (r.1, cAll ++ r.2.1, r.2.2)

/-- The `summary.csv` write performed for a directory itself: present
exactly when its row list is non-empty and no listing error aborted the
scan (src/index.ts:259-262). -/
def summaryWrite (env : Env) (folder : String) (t : DirTree) : Option FileWrite :=
  let r := procList env folder t
  match r.2.2 with
  | some _ => none
  | none =>
    if r.1.isEmpty then none
    else some (pathJoin folder "summary.csv", generateCsvContent r.1)

/-- `processFolderForSummary` on one directory tree: all writes performed
(children first, then the directory's own `summary.csv`), plus the
propagated listing error if one occurred. -/
def processFolderForSummary (env : Env) (folder : String) (t : DirTree) :
    List FileWrite × Option FsError :=
  let r := procList env folder t
  match r.2.2 with
  | some e => (r.2.1, some e)
  | none =>
    (r.2.1 ++
      (if r.1.isEmpty then []
       else [(pathJoin folder "summary.csv", generateCsvContent r.1)]), none)

/-- The file names listed directly in a directory tree, in order. -/
def listFiles : DirTree → List String
  | .readError => []
  | .nil => []
  | .fileEntry n r => n :: listFiles r
  | .dirEntry _ _ r => listFiles r

/-- Whether any listing in the tree fails. -/
def hasReadError : DirTree → Bool
  | .readError => true
  | .nil => false
  | .fileEntry _ r => hasReadError r
  | .dirEntry _ c r => hasReadError c || hasReadError r

/-- The row contributed by one listed name, if any. -/
def rowOf (env : Env) (folder name : String) : Option SummaryRow :=
  if isSupportedFile name then some (buildRow env folder name) else none

/-- The 21-column header list stated by the spec (§4.5); kept only to be
compared against the header the code actually emits. -/
def specSummaryHeaders21 : List String :=
  ["Filename", "Duration", "Has Transcription", "Has Analysis", "Timestamp",
   "Phone Number", "Call Type", "Gender", "Sentiment", "Confidence",
   "Emotional State", "Rapport Score", "Call Tags", "Call Tags Count",
   "Payment Intent", "Next Best Action", "To-Do", "Concerns Count",
   "Conversion Probability", "Urgency Level", "Missed Opportunity"]

/-- A concrete row, as built for one audio file with no sidecars. -/
def sampleRow : SummaryRow :=
  { filename := "recording.amr", duration := "00:00:20",
    hasTranscription := true, meta := allNA }

/-- A concrete environment in which every external probe fails. -/
def env0 : Env := ⟨fun _ => none, fun _ => false⟩

/-- A concrete directory listing with two supported files and one other. -/
def tW : DirTree :=
  .fileEntry "a.mp3" (.fileEntry "skip.txt" (.fileEntry "b.Amr" .nil))

/-! ## Helper lemmas -/

theorem takeWhile_append_all (p : Char → Bool) (l r : List Char)
    (h : ∀ c ∈ l, p c = true) :
    (l ++ r).takeWhile p = l ++ r.takeWhile p := by
  induction l with
  | nil => rfl
  | cons c cs ih =>
    have hc : p c = true := h c (by simp)
    simp only [List.cons_append, List.takeWhile_cons, hc, ite_true]
    rw [ih fun d hd => h d (by simp [hd])]

theorem takeWhile_stops (p : Char → Bool) (l r : List Char) (c : Char)
    (hl : ∀ d ∈ l, p d = true) (hc : p c = false) :
    (l ++ c :: r).takeWhile p = l := by
  rw [takeWhile_append_all p l (c :: r) hl]
  simp [List.takeWhile_cons, hc]

theorem tryStrategies_none (f : String) :
    ∀ l : List FilenameStrategy, (∀ q ∈ l, q.canParse f = false) →
      tryStrategies l f = allNA := by
  intro l
  induction l with
  | nil => intro _; rfl
  | cons q rest ih =>
    intro h
    have hq : q.canParse f = false := h q (by simp)
    simp only [tryStrategies, hq, Bool.false_eq_true, if_false]
    exact ih fun r hr => h r (by simp [hr])

theorem tryStrategies_first (f : String) (p : FilenameStrategy)
    (post : List FilenameStrategy) (hp : p.canParse f = true) :
    ∀ pre : List FilenameStrategy, (∀ q ∈ pre, q.canParse f = false) →
      tryStrategies (pre ++ p :: post) f = p.parse f := by
  intro pre
  induction pre with
  | nil => intro _; simp [tryStrategies, hp]
  | cons q rest ih =>
    intro h
    have hq : q.canParse f = false := h q (by simp)
    simp only [List.cons_append, tryStrategies, hq, Bool.false_eq_true, if_false]
    exact ih fun r hr => h r (by simp [hr])

theorem splitOnColon_no_colon (a : List Char) (h : ∀ c ∈ a, c ≠ ':') :
    splitOnColon a = [a] := by
  induction a with
  | nil => rfl
  | cons c rest ih =>
    have hc : c ≠ ':' := h c (by simp)
    simp only [splitOnColon, hc, if_false]
    rw [ih fun d hd => h d (by simp [hd])]

theorem splitOnColon_append (a rest : List Char) (h : ∀ c ∈ a, c ≠ ':') :
    splitOnColon (a ++ ':' :: rest) = a :: splitOnColon rest := by
  induction a with
  | nil => simp [splitOnColon]
  | cons c a2 ih =>
    have hc : c ≠ ':' := h c (by simp)
    simp only [List.cons_append, splitOnColon, hc, if_false, List.append_eq]
    rw [ih fun d hd => h d (by simp [hd])]

theorem csvScan_no_quote :
    ∀ (cs : List Char), (∀ c ∈ cs, c ≠ '"') →
    ∀ field row rows tail,
      csvScan true field row rows (cs ++ tail) =
        csvScan true (field ++ cs) row rows tail := by
  intro cs
  induction cs with
  | nil => intro _ field row rows tail; simp
  | cons c cs2 ih =>
    intro h field row rows tail
    have hc : c ≠ '"' := h c (by simp)
    have step : csvScan true field row rows ((c :: cs2) ++ tail) =
        csvScan true (field ++ [c]) row rows (cs2 ++ tail) := by
      by_cases h1 : c = ','
      · subst h1; rw [List.cons_append, csvScan.eq_def]; rfl
      · by_cases h2 : c = '\n'
        · subst h2; rw [List.cons_append, csvScan.eq_def]; rfl
        · rw [List.cons_append, csvScan.eq_def]
          simp only [hc, h1, h2, if_false, if_true, ite_true, ite_false]
    rw [step, ih (fun d hd => h d (by simp [hd])) (field ++ [c]),
      List.append_assoc]
    rfl

/-- The first line of the generated CSV text is the header row. -/
theorem firstLine_generateCsv (rows : List SummaryRow) :
    firstLine (generateCsvContent rows) =
      "Filename,Duration,Has Transcription,Timestamp,Phone Number,Call Type" := by
  have hH : String.intercalate "," csvHeaders =
      "Filename,Duration,Has Transcription,Timestamp,Phone Number,Call Type" := by
    decide
  unfold generateCsvContent firstLine
  rw [hH, String.data_append, String.data_append]
  have : ("\n" : String).data ++ (String.join (rows.map rowLine)).data =
      '\n' :: (String.join (rows.map rowLine)).data := rfl
  rw [List.append_assoc, this,
    takeWhile_stops _ _ _ _ (by decide) (by decide)]

/-- The error component of the walk is exactly the presence of a listing
failure somewhere in the tree. -/
theorem procList_err (env : Env) : ∀ (t : DirTree) (folder : String),
    (procList env folder t).2.2 =
      if hasReadError t then some FsError.readdirFailed else none := by
  intro t
  induction t with
  | readError => intro folder; rfl
  | nil => intro folder; rfl
  | fileEntry n rest ih =>
    intro folder
    simp [procList, hasReadError, ih folder]
  | dirEntry n child rest ihc ihr =>
    intro folder
    have hc := ihc (pathJoin folder n)
    cases hchild : hasReadError child with
    | true =>
      rw [hchild] at hc
      simp [procList, hc, hasReadError, hchild]
    | false =>
      rw [hchild] at hc
      simp [procList, hc, hasReadError, hchild, ihr folder]

/-- In an error-free tree the rows of a directory are exactly the filtered
listed file names, independent of any per-file probe outcome. -/
theorem procList_rows (env : Env) : ∀ (t : DirTree) (folder : String),
    hasReadError t = false →
    (procList env folder t).1 = (listFiles t).filterMap (rowOf env folder) := by
  intro t
  induction t with
  | readError => intro folder h; simp [hasReadError] at h
  | nil => intro folder _; rfl
  | fileEntry n rest ih =>
    intro folder h
    have hrest : hasReadError rest = false := by
      simpa [hasReadError] using h
    by_cases hs : isSupportedFile n <;>
      simp [procList, listFiles, List.filterMap_cons, rowOf, hs,
        ih folder hrest]
  | dirEntry n child rest ihc ihr =>
    intro folder h
    have hboth := h
    simp only [hasReadError, Bool.or_eq_false_iff] at hboth
    have hc := procList_err env child (pathJoin folder n)
    rw [hboth.1] at hc
    simp [procList, hc, listFiles, ihr folder hboth.2]

/-- A digit is not one of the whitespace characters. -/
theorem isSpacey_of_digit (c : Char) (h : isDigitCh c = true) :
    isSpacey c = false := by
  simp only [isSpacey, Bool.or_eq_false_iff]
  refine ⟨⟨⟨?_, ?_⟩, ?_⟩, ?_⟩ <;>
    · simp only [decide_eq_false_iff_not]
      rintro rfl
      exact absurd h (by decide)

theorem takeWhile_eq_nil_of_none (p : Char → Bool) (l : List Char)
    (h : ∀ c ∈ l, p c = false) : l.takeWhile p = [] := by
  cases l with
  | nil => rfl
  | cons c r => simp [List.takeWhile_cons, h c (by simp)]

theorem spaceTailCap_nospace (cs : List Char)
    (h : ∀ c ∈ cs, isSpacey c = false) : spaceTailCap cs = none := by
  simp [spaceTailCap, takeWhile_eq_nil_of_none _ _ h]

theorem searchSplitCap_nospace :
    ∀ (cs : List Char), (∀ c ∈ cs, isSpacey c = false) →
    ∀ acc, searchSplitCap acc cs = none := by
  intro cs
  induction cs with
  | nil => intro _ acc; rfl
  | cons c rest ih =>
    intro h acc
    have hrest : ∀ d ∈ rest, isSpacey d = false := fun d hd => h d (by simp [hd])
    by_cases hc : spacePhoneClass c <;>
      simp [searchSplitCap, hc, spaceTailCap_nospace rest hrest, ih hrest]

theorem spaceMatchCap_nospace (cs : List Char)
    (h : ∀ c ∈ cs, isSpacey c = false) : spaceMatchCap cs = none := by
  cases cs with
  | nil => rfl
  | cons c t =>
    have ht : ∀ d ∈ t, isSpacey d = false := fun d hd => h d (by simp [hd])
    by_cases hc : c = '+' <;>
      simp [spaceMatchCap, hc, searchSplitCap_nospace t ht,
        searchSplitCap_nospace (c :: t) h]

/-- Stripping the final extension of `<core>.<t>` leaves `core` when the
extension body has no dot. -/
theorem stripLastExt_append (core t : List Char) (ht : t ≠ [])
    (hdot : ∀ c ∈ t, c ≠ '.') :
    stripLastExt (String.mk (core ++ '.' :: t)) = String.mk core := by
  have hrev : (core ++ '.' :: t).reverse = t.reverse ++ '.' :: core.reverse := by
    simp
  have htake : ((core ++ '.' :: t).reverse.takeWhile fun c => c ≠ '.') =
      t.reverse := by
    rw [hrev]
    exact takeWhile_stops _ _ _ '.'
      (fun d hd => by simp [hdot d (List.mem_reverse.mp hd)]) (by decide)
  have hdrop : (core ++ '.' :: t).reverse.drop t.reverse.length =
      '.' :: core.reverse := by
    rw [hrev]
    exact List.drop_left _ _
  rcases hne : t.reverse with _ | ⟨a, l⟩
  · exact absurd (by simpa using hne) ht
  · simp only [stripLastExt]
    rw [htake, hdrop, hne]
    simp

/-- The compact regex accepts exactly a `[+]?digits` phone, a dash and ten
digits, splitting the ten digits into five two-character groups. -/
theorem compactMatch_concrete (plus : Bool) (ds yy mo dd hh mi : List Char)
    (hds : ds ≠ []) (hdig : ds.all isDigitCh = true)
    (hyy : yy.length = 2) (hyd : yy.all isDigitCh = true)
    (hmo : mo.length = 2) (hmd : mo.all isDigitCh = true)
    (hdl : dd.length = 2) (hdd : dd.all isDigitCh = true)
    (hhl : hh.length = 2) (hhd : hh.all isDigitCh = true)
    (hml : mi.length = 2) (hmid : mi.all isDigitCh = true) :
    compactMatch (((if plus then ['+'] else []) ++ ds) ++
        '-' :: (yy ++ mo ++ dd ++ hh ++ mi)) =
      some ((if plus then ['+'] else []) ++ ds, yy, mo, dd, hh, mi) := by
  have htlen : (yy ++ mo ++ dd ++ hh ++ mi).length = 10 := by
    simp [hyy, hmo, hdl, hhl, hml]
  have hlen : ((((if plus then ['+'] else []) ++ ds) ++
      '-' :: (yy ++ mo ++ dd ++ hh ++ mi)).length - 11) =
      ((if plus then ['+'] else []) ++ ds).length := by
    simp [hyy, hmo, hdl, hhl, hml]
    omega
  have htake : (((if plus then ['+'] else []) ++ ds) ++
      '-' :: (yy ++ mo ++ dd ++ hh ++ mi)).take
        ((((if plus then ['+'] else []) ++ ds) ++
          '-' :: (yy ++ mo ++ dd ++ hh ++ mi)).length - 11) =
      (if plus then ['+'] else []) ++ ds := by
    rw [hlen]
    exact List.take_left _ _
  have hdrop : (((if plus then ['+'] else []) ++ ds) ++
      '-' :: (yy ++ mo ++ dd ++ hh ++ mi)).drop
        ((((if plus then ['+'] else []) ++ ds) ++
          '-' :: (yy ++ mo ++ dd ++ hh ++ mi)).length - 11) =
      '-' :: (yy ++ mo ++ dd ++ hh ++ mi) := by
    rw [hlen]
    exact List.drop_left _ _
  have hall : (yy ++ mo ++ dd ++ hh ++ mi).all isDigitCh = true := by
    simp [List.all_append, hyd, hmd, hdd, hhd, hmid]
  have hpok : compactPhoneOk ((if plus then ['+'] else []) ++ ds) = true := by
    cases plus with
    | false =>
      rcases hcons : ds with _ | ⟨d, ds2⟩
      · exact absurd hcons hds
      · have h2 := hdig
        rw [hcons] at h2
        obtain ⟨hd, -⟩ : isDigitCh d = true ∧ ds2.all isDigitCh = true := by
          simpa using h2
        have hdp : ¬(d = '+') := by
          intro h
          subst h
          exact absurd hd (by decide)
        rw [hcons] at hdig
        simp [compactPhoneOk, hdp, hdig]
    | true =>
      have hne : ds.isEmpty = false := by
        simpa [List.isEmpty_iff] using hds
      simp [compactPhoneOk, hne, hdig]
  have e1 : (yy ++ mo ++ dd ++ hh ++ mi).take 2 = yy := by
    rw [show yy ++ mo ++ dd ++ hh ++ mi = yy ++ (mo ++ dd ++ hh ++ mi) by
      simp [List.append_assoc]]
    exact List.take_left' hyy
  have e2 : (yy ++ mo ++ dd ++ hh ++ mi).drop 2 = mo ++ dd ++ hh ++ mi := by
    rw [show yy ++ mo ++ dd ++ hh ++ mi = yy ++ (mo ++ dd ++ hh ++ mi) by
      simp [List.append_assoc]]
    exact List.drop_left' hyy
  have e2t : (mo ++ dd ++ hh ++ mi).take 2 = mo := by
    rw [show mo ++ dd ++ hh ++ mi = mo ++ (dd ++ hh ++ mi) by
      simp [List.append_assoc]]
    exact List.take_left' hmo
  have e4 : (yy ++ mo ++ dd ++ hh ++ mi).drop 4 = dd ++ hh ++ mi := by
    rw [show yy ++ mo ++ dd ++ hh ++ mi = (yy ++ mo) ++ (dd ++ hh ++ mi) by
      simp [List.append_assoc]]
    exact List.drop_left' (by simp [hyy, hmo])
  have e4t : (dd ++ hh ++ mi).take 2 = dd := by
    rw [show dd ++ hh ++ mi = dd ++ (hh ++ mi) by simp [List.append_assoc]]
    exact List.take_left' hdl
  have e6 : (yy ++ mo ++ dd ++ hh ++ mi).drop 6 = hh ++ mi := by
    rw [show yy ++ mo ++ dd ++ hh ++ mi = (yy ++ mo ++ dd) ++ (hh ++ mi) by
      simp [List.append_assoc]]
    exact List.drop_left' (by simp [hyy, hmo, hdl])
  have e6t : (hh ++ mi).take 2 = hh := List.take_left' hhl
  have e8 : (yy ++ mo ++ dd ++ hh ++ mi).drop 8 = mi := by
    rw [show yy ++ mo ++ dd ++ hh ++ mi = (yy ++ mo ++ dd ++ hh) ++ mi by
      simp [List.append_assoc]]
    exact List.drop_left' (by simp [hyy, hmo, hdl, hhl])
  simp only [compactMatch, htake, hdrop, htlen, hall, hpok, e1, e2, e2t, e4,
    e4t, e6, e6t, e8]
  simp

end CallRec

/-- Claim C5 counterexample: the header actually emitted for a written
`summary.csv` is not the 21-column header named by the claim. -/
theorem c5_counterexample :
    (CallRec.firstLine (CallRec.generateCsvContent [CallRec.sampleRow]) ==
      String.intercalate "," CallRec.specSummaryHeaders21) = false := by
  decide

/-- Claim C5 (amended): every folder-level `summary.csv` is written with the
same fixed 6-column header (Filename, Duration, Has Transcription,
Timestamp, Phone Number, Call Type), identical across all folders. -/
theorem c5_fixed_header (rows : List CallRec.SummaryRow) :
    CallRec.firstLine (CallRec.generateCsvContent rows) =
      "Filename,Duration,Has Transcription,Timestamp,Phone Number,Call Type" :=
  CallRec.firstLine_generateCsv rows

/-- Claim C9: a listed file contributes a summary row exactly when its
extension, lowercased, is in the supported set; matching is
case-insensitive. -/
theorem c9_extension_filter :
    (∀ name, CallRec.isSupportedFile name =
      CallRec.supportedExtensions.contains (CallRec.lowerStr (CallRec.extname name))) ∧
    (∀ env folder name rest,
      (CallRec.procList env folder (.fileEntry name rest)).1 =
        (if CallRec.isSupportedFile name
         then [CallRec.buildRow env folder name] else []) ++
          (CallRec.procList env folder rest).1) ∧
    CallRec.isSupportedFile "call.MP3" = true ∧
    CallRec.isSupportedFile "voice.Amr" = true ∧
    CallRec.isSupportedFile "call.mp3" = true ∧
    CallRec.isSupportedFile "notes.txt" = false :=
  ⟨fun _ => rfl, fun _ _ _ _ => rfl, by decide, by decide, by decide, by decide⟩

/-- Claim C2 (code bug): on the documented example filename the TP-token
parsers return the claimed timestamp and phone number, but the call type
comes out as "outgoing.amr" — the extension-stripped base name is computed
and then ignored, so the TP4 capture runs to the end of the full filename —
where the claim (and the repository README's example CSV row) says
"outgoing". -/
theorem c2_token_example :
    CallRec.arexParse
        "recording-TP11755659148284TP2TP37561074523TP4outgoing.amr" =
      ⟨"2025-08-20 03:05:48", "7561074523", "outgoing.amr"⟩ ∧
    CallRec.parseFilenameMetadataIndex
        "recording-TP11755659148284TP2TP37561074523TP4outgoing.amr" =
      ⟨"2025-08-20 03:05:48", "7561074523", "outgoing.amr"⟩ := by
  constructor <;> decide

/-- Claim C4: resolution uses the manual override unconditionally when set;
otherwise the registered strategies are tried in registration order and the
first whose `canParse` accepts wins; with no match the all-"N/A" record is
returned. -/
theorem c4_resolution_order (fac : CallRec.ParserFactory) (f : String) :
    (∀ p, fac.manualParser = some p →
      CallRec.factoryResolve fac f = p.parse f) ∧
    (fac.manualParser = none →
      ∀ pre p post, fac.parsers = pre ++ p :: post →
        (∀ q ∈ pre, q.canParse f = false) → p.canParse f = true →
        CallRec.factoryResolve fac f = p.parse f) ∧
    (fac.manualParser = none →
      (∀ q ∈ fac.parsers, q.canParse f = false) →
      CallRec.factoryResolve fac f = CallRec.allNA) := by
  refine ⟨?_, ?_, ?_⟩
  · intro p hp
    simp [CallRec.factoryResolve, hp]
  · intro hm pre p post hps hpre hp
    simp only [CallRec.factoryResolve, hm, hps]
    exact CallRec.tryStrategies_first f p post hp pre hpre
  · intro hm hall
    simp only [CallRec.factoryResolve, hm]
    exact CallRec.tryStrategies_none f fac.parsers hall

/-- Witness for C4 at a concrete input: the simple strategy is reached in
order for a compact-pattern filename the arex strategy rejects. -/
theorem c4_witness :
    CallRec.factoryResolve CallRec.defaultFactory "+918328633433-2511071507.amr" =
      CallRec.simpleStrategy.parse "+918328633433-2511071507.amr" :=
  (c4_resolution_order CallRec.defaultFactory
      "+918328633433-2511071507.amr").2.1 rfl
    [CallRec.arexStrategy] CallRec.simpleStrategy [] rfl
    (by
      intro q hq
      rw [List.mem_singleton] at hq
      subst hq
      decide)
    (by decide)

/-- Claim C10: every parser is total; each metadata field is the defined
string "N/A" whenever its extraction fails — a missing TP token, a TP1
value outside the JS `Date` range (which throws inside the `try`, yielding
all defaults), a base name matching neither simple pattern, or no strategy
accepting the filename. -/
theorem c10_parsers_total :
    (∀ f : String,
      CallRec.scanTok ['T', 'P', '1'] CallRec.isDigitCh f.data = none →
      (CallRec.arexParse f).timestamp = "N/A" ∧
      (CallRec.parseFilenameMetadataIndex f).timestamp = "N/A") ∧
    (∀ f : String,
      CallRec.scanTok ['T', 'P', '3'] CallRec.isPlusDigit f.data = none →
      (CallRec.arexParse f).phoneNumber = "N/A" ∧
      (CallRec.parseFilenameMetadataIndex f).phoneNumber = "N/A") ∧
    (∀ f : String,
      CallRec.scanTok ['T', 'P', '4'] CallRec.isWordCh f.data = none →
      (CallRec.arexParse f).callType = "N/A" ∧
      (CallRec.parseFilenameMetadataIndex f).callType = "N/A") ∧
    (∀ (f : String) (ds : List Char),
      CallRec.scanTok ['T', 'P', '1'] CallRec.isDigitCh f.data = some ds →
      CallRec.digitsVal ds > CallRec.maxDateMs →
      CallRec.arexParse f = CallRec.allNA ∧
      CallRec.parseFilenameMetadataIndex f = CallRec.allNA) ∧
    (∀ f : String,
      CallRec.spaceMatchCap (CallRec.stripLastExt f).data = none →
      CallRec.compactMatch (CallRec.stripLastExt f).data = none →
      CallRec.simpleParse f = CallRec.allNA) ∧
    (∀ (fac : CallRec.ParserFactory) (f : String),
      fac.manualParser = none →
      (∀ q ∈ fac.parsers, q.canParse f = false) →
      CallRec.factoryResolve fac f = CallRec.allNA) := by
  refine ⟨?_, ?_, ?_, ?_, ?_, ?_⟩
  · intro f h
    constructor <;>
      simp [CallRec.arexParse, CallRec.parseFilenameMetadataIndex, h]
  · intro f h
    rcases hs : CallRec.scanTok ['T', 'P', '1'] CallRec.isDigitCh f.data with _ | ds
    · constructor <;>
        simp [CallRec.arexParse, CallRec.parseFilenameMetadataIndex, hs,
          CallRec.arexPhoneOf, h]
    · by_cases hd : CallRec.digitsVal ds ≤ CallRec.maxDateMs <;>
        constructor <;>
        simp [CallRec.arexParse, CallRec.parseFilenameMetadataIndex, hs, hd,
          CallRec.arexPhoneOf, h, CallRec.allNA]
  · intro f h
    have hct : CallRec.arexCallTypeOf f.data = none := by
      simp [CallRec.arexCallTypeOf, h]
    rcases hs : CallRec.scanTok ['T', 'P', '1'] CallRec.isDigitCh f.data with _ | ds
    · constructor <;>
        simp [CallRec.arexParse, CallRec.parseFilenameMetadataIndex, hs, hct]
    · by_cases hd : CallRec.digitsVal ds ≤ CallRec.maxDateMs <;>
        constructor <;>
        simp [CallRec.arexParse, CallRec.parseFilenameMetadataIndex, hs, hd,
          hct, CallRec.allNA]
  · intro f ds hs hgt
    have hd : ¬ CallRec.digitsVal ds ≤ CallRec.maxDateMs := by omega
    constructor <;>
      simp [CallRec.arexParse, CallRec.parseFilenameMetadataIndex, hs, hd]
  · intro f h1 h2
    simp [CallRec.simpleParse, h1, h2]
  · intro fac f hm hall
    simp only [CallRec.factoryResolve, hm]
    exact CallRec.tryStrategies_none f fac.parsers hall

/-- Witness for C10 at concrete inputs: a token-free name, an out-of-range
TP1 value, an unmatchable simple name and an unmatchable factory input all
produce defined "N/A" fields. -/
theorem c10_witness :
    (CallRec.arexParse "plain.mp3").timestamp = "N/A" ∧
    CallRec.arexParse "xTP199999999999999999TP37TP4hi" = CallRec.allNA ∧
    CallRec.simpleParse "garbage" = CallRec.allNA ∧
    CallRec.factoryResolve ⟨[CallRec.arexStrategy, CallRec.simpleStrategy], none⟩
      "zzz" = CallRec.allNA :=
  ⟨(c10_parsers_total.1 "plain.mp3" (by decide)).1,
   (c10_parsers_total.2.2.2.1 "xTP199999999999999999TP37TP4hi"
      ("99999999999999999" : String).data (by decide) (by decide)).1,
   c10_parsers_total.2.2.2.2.1 "garbage" (by rfl) (by rfl),
   c10_parsers_total.2.2.2.2.2 ⟨[CallRec.arexStrategy, CallRec.simpleStrategy], none⟩
     "zzz" rfl
     (by
       intro q hq
       rcases List.mem_cons.mp hq with h | hq2
       · subst h; decide
       · rw [List.mem_singleton] at hq2
         subst hq2
         decide)⟩

/-- Claim C7: the pure duration parser accepts `H:MM:SS` (three
colon-parts), `MM:SS` (two parts) and a bare integer, converting to total
seconds with unparsable parts defaulting to 0. -/
theorem c7_hms_to_seconds :
    (∀ a b c : String, (∀ ch ∈ a.data, ch ≠ ':') → (∀ ch ∈ b.data, ch ≠ ':') →
      (∀ ch ∈ c.data, ch ≠ ':') →
      CallRec.hmsToSeconds (a ++ ":" ++ b ++ ":" ++ c) =
        3600 * CallRec.parseIntOr0 a.data + 60 * CallRec.parseIntOr0 b.data +
          CallRec.parseIntOr0 c.data) ∧
    (∀ a b : String, (∀ ch ∈ a.data, ch ≠ ':') → (∀ ch ∈ b.data, ch ≠ ':') →
      CallRec.hmsToSeconds (a ++ ":" ++ b) =
        60 * CallRec.parseIntOr0 a.data + CallRec.parseIntOr0 b.data) ∧
    (∀ a : String, (∀ ch ∈ a.data, ch ≠ ':') →
      CallRec.hmsToSeconds a = CallRec.parseIntOr0 a.data) ∧
    (∀ ds : List Char, ds ≠ [] → ds.all CallRec.isDigitCh = true →
      CallRec.parseIntOr0 ds = CallRec.digitsVal ds) ∧
    CallRec.hmsToSeconds "1:xx:05" = 3605 := by
  have hdata2 : ∀ a b : String, (a ++ ":" ++ b).data =
      a.data ++ ':' :: b.data := by
    intro a b
    rw [String.data_append, String.data_append]
    simp [List.append_assoc]
  refine ⟨?_, ?_, ?_, ?_, by decide⟩
  · intro a b c ha hb hc
    have hd : (a ++ ":" ++ b ++ ":" ++ c).data =
        a.data ++ ':' :: (b.data ++ ':' :: c.data) := by
      rw [String.data_append, String.data_append, hdata2 a b]
      simp [List.append_assoc]
    unfold CallRec.hmsToSeconds
    rw [hd, CallRec.splitOnColon_append _ _ ha,
      CallRec.splitOnColon_append _ _ hb, CallRec.splitOnColon_no_colon _ hc]
  · intro a b ha hb
    unfold CallRec.hmsToSeconds
    rw [hdata2 a b, CallRec.splitOnColon_append _ _ ha,
      CallRec.splitOnColon_no_colon _ hb]
  · intro a ha
    unfold CallRec.hmsToSeconds
    rw [CallRec.splitOnColon_no_colon _ ha]
  · intro ds h1 h2
    simp [CallRec.parseIntOr0, h1, h2]

/-- Witness for C7 at a concrete input: `1:02:03` is 3723 seconds. -/
theorem c7_witness :
    CallRec.hmsToSeconds ("1" ++ ":" ++ "02" ++ ":" ++ "03") =
      3600 * CallRec.parseIntOr0 "1".data + 60 * CallRec.parseIntOr0 "02".data +
        CallRec.parseIntOr0 "03".data :=
  c7_hms_to_seconds.1 "1" "02" "03" (by decide) (by decide) (by decide)

/-- Claim C1 counterexample: the serializer does not double an embedded
double quote, so the round trip fails on a field containing one: parsing
the serialized row of the single field `a"b` yields `ab`. -/
theorem c1_counterexample :
    (((CallRec.csvParse (CallRec.csvSerializeRow ["a\"b"])).headD []).headD ""
      == "a\"b") = false := by
  decide

/-- Claim C1 (amended): for every non-empty string field with no embedded
double quote — commas and newlines are fine — the CSV codec round-trips:
parsing the serialized single-field row yields the field back unchanged.
Fields containing a double quote are corrupted because the serializer never
doubles quotes, and the empty field is lost to empty-row skipping. -/
theorem c1_roundtrip_quote_free (s : String) (hne : s.data ≠ [])
    (hq : ∀ c ∈ s.data, c ≠ '"') :
    CallRec.csvParse (CallRec.csvSerializeRow [s]) = [[s]] := by
  have hser : CallRec.csvSerializeRow [s] = "\"" ++ s ++ "\"" := rfl
  have hdata : ("\"" ++ s ++ "\"").data = '"' :: (s.data ++ ['"']) := by
    rw [String.data_append, String.data_append]
    rfl
  unfold CallRec.csvParse
  rw [hser, hdata]
  have h1 : CallRec.csvScan false [] [] [] ('"' :: (s.data ++ ['"'])) =
      CallRec.csvScan true [] [] [] (s.data ++ ['"']) := by
    rw [CallRec.csvScan.eq_def]; rfl
  rw [h1, CallRec.csvScan_no_quote s.data hq [] [] [] ['"']]
  have h2 : CallRec.csvScan true ([] ++ s.data) [] [] ['"'] =
      CallRec.csvScan false s.data [] [] [] := by
    rw [List.nil_append, CallRec.csvScan.eq_def]; rfl
  rw [h2, CallRec.csvScan.eq_def]
  have h3 : ¬([s.data] = [[]]) := by
    simp [hne]
  simp [h3]

/-- Witness for C1 at a concrete input: a field holding a comma and a
newline survives the round trip. -/
theorem c1_witness :
    CallRec.csvParse (CallRec.csvSerializeRow ["a,b\nc"]) = [["a,b\nc"]] :=
  c1_roundtrip_quote_free "a,b\nc" (by decide) (by decide)

/-- Claim C6: in a directory whose scan completes, `summary.csv` is written
there exactly when at least one listed file has a supported extension; the
full output of processing the directory is the children's writes followed by
that optional own write. -/
theorem c6_summary_written_iff (env : CallRec.Env) (folder : String)
    (t : CallRec.DirTree) (h : CallRec.hasReadError t = false) :
    ((CallRec.summaryWrite env folder t).isSome ↔
      ∃ n ∈ CallRec.listFiles t, CallRec.isSupportedFile n = true) ∧
    CallRec.processFolderForSummary env folder t =
      ((CallRec.procList env folder t).2.1 ++
        (CallRec.summaryWrite env folder t).toList, none) := by
  have he : (CallRec.procList env folder t).2.2 = none := by
    rw [CallRec.procList_err]
    simp [h]
  have hr := CallRec.procList_rows env t folder h
  have key : ((CallRec.procList env folder t).1 = []) ↔
      ∀ n ∈ CallRec.listFiles t, CallRec.isSupportedFile n = false := by
    rw [hr, List.filterMap_eq_nil_iff]
    constructor <;> intro hh n hn <;> have hx := hh n hn <;> revert hx <;>
      by_cases hs : CallRec.isSupportedFile n <;> simp [CallRec.rowOf, hs]
  constructor
  · by_cases hE : (CallRec.procList env folder t).1 = []
    · simp only [CallRec.summaryWrite, he, hE, List.isEmpty_nil, if_true]
      simp only [Option.isSome_none, Bool.false_eq_true, false_iff]
      rintro ⟨n, hn, hsn⟩
      rw [key.mp hE n hn] at hsn
      exact Bool.false_ne_true hsn
    · have hne : ((CallRec.procList env folder t).1).isEmpty = false := by
        simpa [List.isEmpty_iff] using hE
      simp only [CallRec.summaryWrite, he, hne, Bool.false_eq_true, if_false,
        Option.isSome_some, true_iff]
      by_contra hnx
      push_neg at hnx
      exact hE (key.mpr fun n hn => by
        have := hnx n hn
        revert this
        cases CallRec.isSupportedFile n <;> simp)
  · by_cases hE : (CallRec.procList env folder t).1 = []
    · have hne : ((CallRec.procList env folder t).1).isEmpty = true := by
        simp [hE]
      simp [CallRec.processFolderForSummary, CallRec.summaryWrite, he, hne]
    · have hne : ((CallRec.procList env folder t).1).isEmpty = false := by
        simpa [List.isEmpty_iff] using hE
      simp [CallRec.processFolderForSummary, CallRec.summaryWrite, he, hne]

/-- Witness for C6 at a concrete input: a folder listing one supported file
gets its `summary.csv`. -/
theorem c6_witness : (CallRec.summaryWrite CallRec.env0 "root" CallRec.tW).isSome :=
  (c6_summary_written_iff CallRec.env0 "root" CallRec.tW (by decide)).1.mpr
    ⟨"a.mp3", by decide, by decide⟩

/-- Claim C8: per-file failures are non-fatal — every supported file still
yields a row whatever the duration provider and transcript probe return,
with `Duration` equal to "N/A" when the provider fails and
`hasTranscription` false when the sidecar is absent — while a directory
listing error propagates and aborts its subtree of the walk. -/
theorem c8_per_file_failures_nonfatal :
    (∀ (env : CallRec.Env) (folder : String) (t : CallRec.DirTree),
      CallRec.hasReadError t = false →
      (CallRec.procList env folder t).1 =
        (CallRec.listFiles t).filterMap (CallRec.rowOf env folder)) ∧
    (∀ (env : CallRec.Env) (folder name : String),
      env.durationOf (CallRec.pathJoin folder name) = none →
      (CallRec.buildRow env folder name).duration = "N/A") ∧
    (∀ (env : CallRec.Env) (folder name : String),
      env.txtExists (CallRec.txtSidecar folder name) = false →
      (CallRec.buildRow env folder name).hasTranscription = false) ∧
    (∀ (env : CallRec.Env) (folder : String) (t : CallRec.DirTree),
      CallRec.hasReadError t = true →
      (CallRec.processFolderForSummary env folder t).2 =
        some CallRec.FsError.readdirFailed) := by
  refine ⟨?_, ?_, ?_, ?_⟩
  · intro env folder t h
    exact CallRec.procList_rows env t folder h
  · intro env folder name h
    simp [CallRec.buildRow, h]
  · intro env folder name h
    simp [CallRec.buildRow, h]
  · intro env folder t h
    have he := CallRec.procList_err env t folder
    rw [h] at he
    simp [CallRec.processFolderForSummary, he]

/-- Witness for C8 at concrete inputs: a failing duration provider and a
missing transcript still yield rows for every supported file, and a listing
error aborts the walk of that subtree. -/
theorem c8_witness :
    (CallRec.procList CallRec.env0 "root" CallRec.tW).1 =
      (CallRec.listFiles CallRec.tW).filterMap (CallRec.rowOf CallRec.env0 "root") ∧
    (CallRec.buildRow CallRec.env0 "root" "a.mp3").duration = "N/A" ∧
    (CallRec.buildRow CallRec.env0 "root" "a.mp3").hasTranscription = false ∧
    (CallRec.processFolderForSummary CallRec.env0 "root"
      (.dirEntry "sub" .readError .nil)).2 = some CallRec.FsError.readdirFailed :=
  ⟨c8_per_file_failures_nonfatal.1 CallRec.env0 "root" CallRec.tW (by decide),
   c8_per_file_failures_nonfatal.2.1 CallRec.env0 "root" "a.mp3" rfl,
   c8_per_file_failures_nonfatal.2.2.1 CallRec.env0 "root" "a.mp3" rfl,
   c8_per_file_failures_nonfatal.2.2.2 CallRec.env0 "root" _ (by decide)⟩

/-- Claim C3: every filename of the compact shape `<phone>-YYMMDDHHMM.<ext>`
parses via the pattern strategy to the phone with a leading `+` stripped and
a timestamp with century prefix `20` and seconds defaulted to `:00`; in
particular the documented example filename. -/
theorem c3_compact_pattern :
    (∀ (plus : Bool) (ds yy mo dd hh mi t : List Char),
      ds ≠ [] → ds.all CallRec.isDigitCh = true →
      yy.length = 2 → yy.all CallRec.isDigitCh = true →
      mo.length = 2 → mo.all CallRec.isDigitCh = true →
      dd.length = 2 → dd.all CallRec.isDigitCh = true →
      hh.length = 2 → hh.all CallRec.isDigitCh = true →
      mi.length = 2 → mi.all CallRec.isDigitCh = true →
      t ≠ [] → (∀ c ∈ t, c ≠ '.') →
      CallRec.simpleParse (String.mk ((((if plus then ['+'] else []) ++ ds) ++
          '-' :: (yy ++ mo ++ dd ++ hh ++ mi)) ++ '.' :: t)) =
        ⟨"20" ++ String.mk yy ++ "-" ++ String.mk mo ++ "-" ++ String.mk dd ++
          " " ++ String.mk hh ++ ":" ++ String.mk mi ++ ":00",
         String.mk ds, "N/A"⟩) ∧
    CallRec.simpleParse "+918328633433-2511071507.amr" =
      ⟨"2025-11-07 15:07:00", "918328633433", "N/A"⟩ := by
  constructor
  · intro plus ds yy mo dd hh mi t hds hdig hyy hyd hmo hmd hdl hdd hhl hhd
      hml hmid ht hdot
    have hstrip := CallRec.stripLastExt_append
      (((if plus then ['+'] else []) ++ ds) ++
        '-' :: (yy ++ mo ++ dd ++ hh ++ mi)) t ht hdot
    have hnospace : ∀ c ∈ (((if plus then ['+'] else []) ++ ds) ++
        '-' :: (yy ++ mo ++ dd ++ hh ++ mi)), CallRec.isSpacey c = false := by
      intro c hc
      rcases List.mem_append.mp hc with hph | hrest
      · rcases List.mem_append.mp hph with hpl | hd
        · cases plus with
          | false => simp at hpl
          | true =>
            simp at hpl
            subst hpl
            decide
        · exact CallRec.isSpacey_of_digit c (List.all_eq_true.mp hdig c hd)
      · rcases List.mem_cons.mp hrest with hdash | hts
        · subst hdash; decide
        · have hall : (yy ++ mo ++ dd ++ hh ++ mi).all CallRec.isDigitCh = true := by
            simp [List.all_append, hyd, hmd, hdd, hhd, hmid]
          exact CallRec.isSpacey_of_digit c (List.all_eq_true.mp hall c hts)
    have hspace := CallRec.spaceMatchCap_nospace _ hnospace
    have hcomp := CallRec.compactMatch_concrete plus ds yy mo dd hh mi hds hdig
      hyy hyd hmo hmd hdl hdd hhl hhd hml hmid
    have hplus : CallRec.stripPlus ((if plus then ['+'] else []) ++ ds) = ds := by
      cases plus with
      | false =>
        rcases hcons : ds with _ | ⟨d, ds2⟩
        · exact absurd hcons hds
        · have h2 := hdig
          rw [hcons] at h2
          obtain ⟨hd, -⟩ : CallRec.isDigitCh d = true ∧
              ds2.all CallRec.isDigitCh = true := by simpa using h2
          have hdp : ¬(d = '+') := by
            intro h
            subst h
            exact absurd hd (by decide)
          simp [CallRec.stripPlus, hdp]
      | true => simp [CallRec.stripPlus]
    have hne : ds.isEmpty = false := by
      simpa [List.isEmpty_iff] using hds
    simp only [CallRec.simpleParse, hstrip, hspace, hcomp, hplus, hne]
    simp [hplus, hne]
  · decide

/-- Witness for C3 at the documented example, through the general statement:
phone digits `918328633433` with a `+` prefix and compact timestamp
`2511071507` with extension `amr`. -/
theorem c3_witness :
    CallRec.simpleParse (String.mk ((((if true then ['+'] else []) ++
        "918328633433".data) ++
        '-' :: ("25".data ++ "11".data ++ "07".data ++ "15".data ++ "07".data)) ++
        '.' :: "amr".data)) =
      ⟨"20" ++ String.mk "25".data ++ "-" ++ String.mk "11".data ++ "-" ++
        String.mk "07".data ++ " " ++ String.mk "15".data ++ ":" ++
        String.mk "07".data ++ ":00", String.mk "918328633433".data, "N/A"⟩ :=
  c3_compact_pattern.1 true "918328633433".data "25".data "11".data "07".data
    "15".data "07".data "amr".data (by decide) (by decide) (by decide)
    (by decide) (by decide) (by decide) (by decide) (by decide) (by decide)
    (by decide) (by decide) (by decide) (by decide) (by decide)
